import Mathlib

/- Shallow embedding of the ODrive ArduinoI2C client library
   (src/ArduinoI2C/odrive.h): the little-endian width-generic codec
   (read_le / write_le), the request-frame construction, and the
   read_property / write_property operations over the external
   I2C_transaction primitive.

   Machine values are represented by their bit patterns: a value of a
   w-bit scalar type is a natural number below 2 ^ w (two's complement
   pattern for signed integers, IEEE-754 bits for floating point; the
   reinterpret_cast in the floating-point overloads is the identity on
   this representation).  Overflowing conversions and shifts are
   modelled as reduction modulo 2 ^ w, matching the uint semantics and
   the de-facto two's complement behaviour of the signed ones. -/

namespace odrive

/-- CHAR_BIT from limits.h on the targets this header supports. -/
def CHAR_BIT : Nat := 8

/-- The candidate endpoint scalar types: the stdint.h fixed-width
integers and the two IEEE-754 floating-point types (odrive.h includes
stdint.h and dispatches on std integral / floating-point traits). -/
inductive ScalarTy where
  | uint8
  | int8
  | uint16
  | int16
  | uint32
  | int32
  | uint64
  | int64
  | float
  | double
deriving DecidableEq

/-- sizeof T in bytes for each candidate scalar type. -/
def sizeofTy : ScalarTy → Nat
  | .uint8 => 1
  | .int8 => 1
  | .uint16 => 2
  | .int16 => 2
  | .uint32 => 4
  | .int32 => 4
  | .uint64 => 8
  | .int64 => 8
  | .float => 4
  | .double => 8

/-- bit_width of T, odrive.h line 57: CHAR_BIT * sizeof(T). -/
def bit_width (t : ScalarTy) : Nat := CHAR_BIT * sizeofTy t

/-- byte_width of T, odrive.h line 60: (bit_width + 7) / 8. -/
def byte_width (t : ScalarTy) : Nat := (bit_width t + 7) / 8

/-- Whether std is_integral holds for the type. -/
def is_integral : ScalarTy → Bool
  | .float => false
  | .double => false
  | _ => true

/-- Whether std is_floating_point holds for the type. -/
def is_floating_point : ScalarTy → Bool
  | .float => true
  | .double => true
  | _ => false

/-- The explicit specializations of unsigned_int_of_size present in the
source (odrive.h lines 63-66): only IBitSize = 32, giving uint32_t.
For any other width the primary template is declared but never defined,
so instantiating it is a compile-time error; this is modelled by
returning none. -/
def unsigned_int_of_size (ibitSize : Nat) : Option ScalarTy :=
  if ibitSize = 32 then some ScalarTy.uint32 else none

/-- Whether the read_le / write_le overload set instantiates for the
type: the integral overloads accept any integral type, and the
floating-point overloads additionally require the
unsigned_int_of_size specialization for the type's bit width. -/
def codec_defined (t : ScalarTy) : Bool :=
  is_integral t || (is_floating_point t && (unsigned_int_of_size (bit_width t)).isSome)

/-- The bytes stored by the write_le loop (odrive.h lines 89-90) into a
fresh exact-size buffer: buffer[i] = (value >> (i << 3)) & 0xff for
i below n, with n the byte width. For a signed type the arithmetic
shift-and-mask of the value produces exactly these bytes of its two's
complement pattern. -/
def write_le_int (n value : Nat) : List Nat :=
  (List.range n).map fun i => (value >>> (i <<< 3)) &&& 0xff

/-- The read_le accumulation loop (odrive.h lines 72-74):
value |= buffer[i] << (i << 3), where value has bit width w so each
assignment truncates modulo 2 ^ w. The argument after the buffer is the
loop bound (the byte width). An out-of-bounds access yields 0 here; the
checked variant below tracks in-boundedness. -/
def read_le_loop (w : Nat) (buffer : List Nat) : Nat → Nat
  | 0 => 0
  | n + 1 => (read_le_loop w buffer n ||| (buffer.getD n 0 <<< (n <<< 3))) % 2 ^ w

/-- Variant of the read_le loop that records whether every buffer
access is in bounds: it returns none as soon as buffer[i] would read
past the end of the buffer. -/
def read_le_checked (w : Nat) (buffer : List Nat) : Nat → Option Nat
  | 0 => some 0
  | n + 1 =>
    match read_le_checked w buffer n, buffer[n]? with
    | some v, some b => some ((v ||| (b <<< (n <<< 3))) % 2 ^ w)
    | _, _ => none

/-- read_le for a type T (odrive.h lines 69-84): the integral overload
runs the accumulation loop for byte_width T steps over a value of
bit_width T bits. The floating-point overload runs the integral
overload at the unsigned type of the same size and reinterprets the
bits, which is the identity on bit patterns, so it is the same
function of the buffer. -/
def read_le (t : ScalarTy) (buffer : List Nat) : Nat :=
  read_le_loop (bit_width t) buffer (byte_width t)

/-- write_le of a value of type T into a fresh exact-size buffer
(odrive.h lines 86-98). As with read_le, the floating-point overload
delegates to the integral one on the same bit pattern. -/
def write_le (t : ScalarTy) (value : Nat) : List Nat :=
  write_le_int (byte_width t) value

/-- write_le of an n-byte value into a caller-supplied buffer at a
byte offset: models the C calls write_le(buffer + off, value), which
store buffer[off + i] = (value >> (i << 3)) & 0xff for i below n. -/
def write_le_into (n : Nat) (buffer : List Nat) (off value : Nat) : List Nat :=
  (List.range n).foldl (fun buf i => buf.set (off + i) ((value >>> (i <<< 3)) &&& 0xff)) buffer

/-- Variant of the write_le store loop that records whether every
store is in bounds: none as soon as buffer[off + i] would write past
the end of the buffer. -/
def write_le_checked (buffer : List Nat) (off value : Nat) : Nat → Option (List Nat)
  | 0 => some buffer
  | n + 1 =>
    match write_le_checked buffer off value n with
    | some buf =>
      if off + n < buf.length then
        some (buf.set (off + n) ((value >>> (n <<< 3)) &&& 0xff))
      else none
    | none => none

/-- The fixed I2C base address, odrive.h line 54. -/
def i2c_addr : Nat := 0xD <<< 3

/-- The slave_addr argument handed to I2C_transaction: the int sum
i2c_addr + num converted to the uint8 parameter type, i.e. reduced
modulo 2 ^ 8 (odrive.h lines 116 and 140). -/
def transaction_addr (num : Nat) : Nat := (i2c_addr + num) % 256

/-- Outcome of one call of the external I2C_transaction primitive:
the returned success flag and the contents of the caller's rx buffer
after the call. -/
structure I2CResult where
  ok : Bool
  rx : List Nat

/-- The external I2C_transaction primitive, as an oracle: arguments are
the slave address, the tx buffer contents, and the rx request, where
none models rx_buffer = nullptr (with rx_length 0) and some n models a
caller rx buffer of n bytes with rx_length = n. -/
abbrev Bus : Type := Nat → List Nat → Option Nat → I2CResult

/-- The 4-byte tx buffer built by read_property (odrive.h lines
112-114): the property id as uint16 at offset 0 and json_crc as uint16
at offset sizeof(buffer) - 2 = 4 - 2.  json_crc comes from the
generated odrive_endpoints.h and is kept as a parameter. -/
def read_request (propertyId json_crc : Nat) : List Nat :=
  write_le_into (byte_width ScalarTy.uint16)
    (write_le_into (byte_width ScalarTy.uint16) (List.replicate 4 0) 0 propertyId)
    (4 - 2) json_crc

/-- The tx buffer of 4 + byte_width T bytes built by write_property
(odrive.h lines 136-139): property id as uint16 at offset 0, the value
at offset 2, json_crc as uint16 at offset sizeof(buffer) - 2. -/
def write_request (t : ScalarTy) (propertyId value json_crc : Nat) : List Nat :=
  write_le_into (byte_width ScalarTy.uint16)
    (write_le_into (byte_width t)
      (write_le_into (byte_width ScalarTy.uint16)
        (List.replicate (4 + byte_width t) 0) 0 propertyId)
      2 value)
    (4 + byte_width t - 2) json_crc

/-- read_property (odrive.h lines 110-123). The pointer argument is
modelled by an Option: none is a null value pointer, some old is a
pointer to a variable currently holding old. The result pairs the
returned flag with the final contents of that variable (none when the
pointer is null): on transaction failure the function returns false
before touching the variable; on success it decodes the rx buffer into
the variable unless the pointer is null. -/
def read_property (bus : Bus) (t : ScalarTy) (propertyId json_crc num : Nat)
    (ptr : Option Nat) : Bool × Option Nat :=
  let r := bus (transaction_addr num) (read_request propertyId json_crc) (some (byte_width t))
  if r.ok then
    match ptr with
    | none => (true, none)
    | some _ => (true, some (read_le t r.rx))
  else (false, ptr)

/-- write_property (odrive.h lines 134-141): build the write request,
run the transaction with a null rx buffer and rx_length 0, and return
the primitive's flag verbatim. -/
def write_property (bus : Bus) (t : ScalarTy) (propertyId value json_crc num : Nat) : Bool :=
  (bus (transaction_addr num) (write_request t propertyId value json_crc) none).ok

/-- The w-bit two's complement pattern of an integer. -/
def pattern_of_int (w : Nat) (z : Int) : Nat := (z % ((2 : Int) ^ w)).toNat

/-- The integer denoted by a w-bit two's complement pattern. -/
def int_of_pattern (w : Nat) (p : Nat) : Int :=
  if p < 2 ^ (w - 1) then (p : Int) else (p : Int) - 2 ^ w

/-! Basic facts about the codec loops. -/

theorem write_le_int_length (n value : Nat) : (write_le_int n value).length = n := by
  simp [write_le_int]

theorem write_le_int_succ (n value : Nat) :
    write_le_int (n + 1) value =
      write_le_int n value ++ [(value >>> (n <<< 3)) &&& 0xff] := by
  unfold write_le_int
  rw [List.range_succ, List.map_append]
  simp

theorem and_0xff_eq_mod (x : Nat) : x &&& 0xff = x % 2 ^ 8 := by
  have h := Nat.and_pow_two_sub_one_eq_mod x 8
  norm_num at h
  norm_num [h]

theorem write_le_int_getD (n value i : Nat) (h : i < n) :
    (write_le_int n value).getD i 0 = value / 2 ^ (8 * i) % 2 ^ 8 := by
  simp only [write_le_int, List.getD_eq_getElem?_getD, List.getElem?_map,
    List.getElem?_range h, Option.map_some', Option.getD_some]
  rw [and_0xff_eq_mod, Nat.shiftLeft_eq, Nat.shiftRight_eq_div_pow]
  norm_num [Nat.mul_comm]

theorem lor_shiftLeft_eq_add {a k : Nat} (b : Nat) (h : a < 2 ^ k) :
    a ||| b <<< k = 2 ^ k * b + a := by
  apply Nat.eq_of_testBit_eq
  intro j
  rw [Nat.testBit_lor, Nat.testBit_shiftLeft, Nat.testBit_mul_pow_two_add b h j]
  by_cases hj : j < k
  · simp [hj, Nat.not_le_of_lt hj]
  · have hk_le : k ≤ j := Nat.le_of_not_lt hj
    have ha : a.testBit j = false :=
      Nat.testBit_lt_two_pow (lt_of_lt_of_le h (Nat.pow_le_pow_right (by norm_num) hk_le))
    simp [hj, hk_le, ha]

theorem read_le_loop_write_le_int (w n value : Nat) :
    ∀ k, k ≤ n → 8 * k ≤ w →
      read_le_loop w (write_le_int n value) k = value % 2 ^ (8 * k) := by
  intro k
  induction k with
  | zero => intro _ _; simp [read_le_loop, Nat.mod_one]
  | succ k ih =>
    intro hkn hkw
    rw [read_le_loop, ih (by omega) (by omega), write_le_int_getD n value k (by omega),
      Nat.shiftLeft_eq k 3, show k * 2 ^ 3 = 8 * k by ring,
      lor_shiftLeft_eq_add _ (Nat.mod_lt value (by positivity))]
    have key : 2 ^ (8 * k) * (value / 2 ^ (8 * k) % 2 ^ 8) + value % 2 ^ (8 * k) =
        value % 2 ^ (8 * (k + 1)) := by
      rw [show 8 * (k + 1) = 8 * k + 8 by ring, pow_add, Nat.mod_mul]
      omega
    rw [key]
    exact Nat.mod_eq_of_lt (lt_of_lt_of_le (Nat.mod_lt value (by positivity))
      (Nat.pow_le_pow_right (by norm_num) (by omega)))

theorem read_le_loop_write_le_int_full (n value : Nat) (h : value < 2 ^ (8 * n)) :
    read_le_loop (8 * n) (write_le_int n value) n = value := by
  rw [read_le_loop_write_le_int (8 * n) n value n le_rfl le_rfl, Nat.mod_eq_of_lt h]

theorem bit_width_eq_mul (t : ScalarTy) : bit_width t = 8 * byte_width t := by
  cases t <;> rfl

theorem read_le_write_le_aux (t : ScalarTy) (value : Nat) (h : value < 2 ^ bit_width t) :
    read_le t (write_le t value) = value := by
  unfold read_le write_le
  rw [bit_width_eq_mul t] at h ⊢
  exact read_le_loop_write_le_int_full (byte_width t) value h

/-! Two's complement representation of signed values. -/

theorem pattern_of_int_lt (w : Nat) (z : Int) : pattern_of_int w z < 2 ^ w := by
  have hpos : (0 : Int) < 2 ^ w := by positivity
  have h1 : z % (2 : Int) ^ w < 2 ^ w := Int.emod_lt_of_pos z hpos
  have h0 : 0 ≤ z % (2 : Int) ^ w := Int.emod_nonneg z (ne_of_gt hpos)
  have hcast : ((2 ^ w : Nat) : Int) = (2 : Int) ^ w := by push_cast; ring
  unfold pattern_of_int
  omega

theorem int_of_pattern_of_int (w : Nat) (hw : 0 < w) (z : Int)
    (h1 : -(2 ^ (w - 1)) ≤ z) (h2 : z < 2 ^ (w - 1)) :
    int_of_pattern w (pattern_of_int w z) = z := by
  have hsplit : (2 : Int) ^ w = 2 ^ (w - 1) * 2 := by
    rw [← pow_succ]
    congr 1
    omega
  have hpos : (0 : Int) < 2 ^ w := by positivity
  have hmod0 : 0 ≤ z % (2 : Int) ^ w := Int.emod_nonneg z (ne_of_gt hpos)
  have hmod1 : z % (2 : Int) ^ w < 2 ^ w := Int.emod_lt_of_pos z hpos
  have hcases : z % (2 : Int) ^ w = z ∨ z % (2 : Int) ^ w = z + 2 ^ w := by
    rcases le_or_lt 0 z with hz | hz
    · exact Or.inl (Int.emod_eq_of_lt hz (by omega))
    · have hshift : (z + 2 ^ w) % (2 : Int) ^ w = z % 2 ^ w := by
        simp
      exact Or.inr (by rw [← hshift, Int.emod_eq_of_lt (by omega) (by omega)])
  have hcastw : ((2 ^ w : Nat) : Int) = (2 : Int) ^ w := by push_cast; ring
  have hcastw1 : ((2 ^ (w - 1) : Nat) : Int) = (2 : Int) ^ (w - 1) := by push_cast; ring
  unfold int_of_pattern pattern_of_int
  split_ifs with hif
  · omega
  · omega

/-! The bounds-checked loop variants agree with the unchecked ones on
buffers that are at least byte_width long, i.e. every access of the
loops is then in bounds. -/

theorem read_le_checked_eq (w : Nat) (buffer : List Nat) :
    ∀ n, n ≤ buffer.length →
      read_le_checked w buffer n = some (read_le_loop w buffer n) := by
  intro n
  induction n with
  | zero => intro _; rfl
  | succ n ih =>
    intro hn
    have hb : buffer[n]? = some (buffer.getD n 0) := by
      rw [List.getD_eq_getElem?_getD, List.getElem?_eq_getElem (by omega)]
      rfl
    rw [read_le_checked, ih (by omega), hb]
    rfl

theorem write_le_into_succ (n : Nat) (buffer : List Nat) (off value : Nat) :
    write_le_into (n + 1) buffer off value =
      (write_le_into n buffer off value).set (off + n) ((value >>> (n <<< 3)) &&& 0xff) := by
  unfold write_le_into
  rw [List.range_succ, List.foldl_append]
  rfl

theorem write_le_into_length (n : Nat) (buffer : List Nat) (off value : Nat) :
    (write_le_into n buffer off value).length = buffer.length := by
  induction n with
  | zero => rfl
  | succ n ih => rw [write_le_into_succ, List.length_set, ih]

theorem write_le_checked_eq (buffer : List Nat) (off value : Nat) :
    ∀ n, off + n ≤ buffer.length →
      write_le_checked buffer off value n = some (write_le_into n buffer off value) := by
  intro n
  induction n with
  | zero => intro _; rfl
  | succ n ih =>
    intro hn
    rw [write_le_checked, ih (by omega), write_le_into_succ]
    have hlen : (write_le_into n buffer off value).length = buffer.length :=
      write_le_into_length n buffer off value
    simp only [hlen]
    rw [if_pos (by omega)]

/-! Stores through write_le_into rewrite exactly the n bytes at the
given offset and leave the rest of the buffer unchanged. -/

theorem write_le_into_eq (n : Nat) (buffer : List Nat) (off value : Nat)
    (h : off + n ≤ buffer.length) :
    write_le_into n buffer off value =
      buffer.take off ++ write_le_int n value ++ buffer.drop (off + n) := by
  induction n with
  | zero =>
    simp [write_le_into, write_le_int]
  | succ n ih =>
    simp only [Nat.add_succ]
    rw [write_le_into_succ, ih (by omega), write_le_int_succ,
      List.drop_eq_getElem_cons (show off + n < buffer.length by omega)]
    have hA : (buffer.take off).length = off := by
      rw [List.length_take]
      omega
    have hB : (write_le_int n value).length = n := write_le_int_length n value
    rw [List.set_append, if_neg (by rw [List.length_append, hA, hB]; omega)]
    simp only [List.length_append, hA, hB, Nat.sub_self, List.set_cons_zero]
    simp [List.append_assoc]

theorem write_le_length (t : ScalarTy) (value : Nat) :
    (write_le t value).length = byte_width t :=
  write_le_int_length (byte_width t) value

/-! The request frames laid out by the property operations are exactly
the concatenations of the encoded id, payload and checksum. -/

theorem read_request_eq (p c : Nat) :
    read_request p c = write_le ScalarTy.uint16 p ++ write_le ScalarTy.uint16 c := by
  have h2 : byte_width ScalarTy.uint16 = 2 := rfl
  unfold read_request write_le
  rw [h2]
  rw [write_le_into_eq 2 (List.replicate 4 0) 0 p (by simp)]
  simp only [List.take_zero, List.nil_append, Nat.zero_add, List.drop_replicate]
  norm_num
  rw [write_le_into_eq 2 (write_le_int 2 p ++ List.replicate 2 0) 2 c
    (by simp [write_le_int_length])]
  rw [List.take_left' (write_le_int_length 2 p),
    List.drop_eq_nil_of_le (by simp [write_le_int_length]), List.append_nil]

theorem write_request_eq (t : ScalarTy) (p v c : Nat) :
    write_request t p v c =
      write_le ScalarTy.uint16 p ++ write_le t v ++ write_le ScalarTy.uint16 c := by
  have h2 : byte_width ScalarTy.uint16 = 2 := rfl
  have harith : 4 + byte_width t - 2 = 2 + byte_width t := by omega
  unfold write_request write_le
  rw [h2, harith]
  rw [write_le_into_eq 2 (List.replicate (4 + byte_width t) 0) 0 p
    (by simp [List.length_replicate]; omega)]
  simp only [List.take_zero, List.nil_append, Nat.zero_add, List.drop_replicate, harith]
  rw [write_le_into_eq (byte_width t)
    (write_le_int 2 p ++ List.replicate (2 + byte_width t) 0) 2 v
    (by simp [write_le_int_length])]
  rw [List.take_left' (write_le_int_length 2 p)]
  rw [List.drop_append_eq_append_drop, List.drop_eq_nil_of_le (by simp [write_le_int_length]),
    List.nil_append, write_le_int_length, List.drop_replicate]
  simp only [show 2 + byte_width t - 2 = byte_width t by omega,
    show 2 + byte_width t - byte_width t = 2 by omega]
  rw [write_le_into_eq 2
    (write_le_int 2 p ++ write_le_int (byte_width t) v ++ List.replicate 2 0)
    (2 + byte_width t) c
    (by simp [write_le_int_length]; omega)]
  rw [List.take_append_eq_append_take,
    List.take_of_length_le (by simp [write_le_int_length])]
  simp only [List.length_append, write_le_int_length, Nat.sub_self, List.take_zero,
    List.append_nil]
  rw [List.drop_eq_nil_of_le (by simp [write_le_int_length]; omega), List.append_nil]

/-! read_property and write_property query the transaction primitive at
exactly one point: the computed slave address, the built request frame
and the rx request; two primitives agreeing there are
indistinguishable to them. -/

theorem property_bus_dependence (bus bus2 : Bus) (t : ScalarTy) (p c num : Nat)
    (h : ∀ tx rx, bus (transaction_addr num) tx rx = bus2 (transaction_addr num) tx rx) :
    (∀ ptr, read_property bus t p c num ptr = read_property bus2 t p c num ptr) ∧
    (∀ v, write_property bus t p v c num = write_property bus2 t p v c num) := by
  constructor
  · intro ptr
    unfold read_property
    rw [h]
  · intro v
    unfold write_property
    rw [h]

/-! Claim theorems. -/

/-- C1: for every scalar type the codec instantiates for and every
representable value of that type, decoding the encoding round-trips bit
for bit. Values are their bit patterns, so the first part covers every
representable value of every supported type, including every
floating-point pattern (zero, negative zero, fractions); the second
part states the round trip for negative (and all in-range) integers of
the signed types through the two's complement view. -/
theorem le_codec_roundtrip (t : ScalarTy) (hdef : codec_defined t = true) :
    (∀ v : Nat, v < 2 ^ bit_width t → read_le t (write_le t v) = v) ∧
    (is_integral t = true → ∀ z : Int,
      -(2 ^ (bit_width t - 1)) ≤ z → z < 2 ^ (bit_width t - 1) →
      int_of_pattern (bit_width t)
        (read_le t (write_le t (pattern_of_int (bit_width t) z))) = z) := by
  constructor
  · intro v hv
    exact read_le_write_le_aux t v hv
  · intro hint z h1 h2
    have hw : 0 < bit_width t := by cases t <;> decide
    rw [read_le_write_le_aux t _ (pattern_of_int_lt _ z)]
    exact int_of_pattern_of_int (bit_width t) hw z h1 h2

/-- Witness for le_codec_roundtrip at an unsigned 32-bit pattern and at
a negative 16-bit integer. -/
theorem le_codec_roundtrip_witness :
    read_le ScalarTy.uint32 (write_le ScalarTy.uint32 3735928559) = 3735928559 ∧
    int_of_pattern (bit_width ScalarTy.int16)
      (read_le ScalarTy.int16
        (write_le ScalarTy.int16 (pattern_of_int (bit_width ScalarTy.int16) (-300)))) =
      -300 := by
  constructor
  · exact (le_codec_roundtrip ScalarTy.uint32 (by decide)).1 3735928559 (by decide)
  · exact (le_codec_roundtrip ScalarTy.int16 (by decide)).2 (by decide) (-300)
      (by decide) (by decide)

/-- C2: for every integral type, write_le emits exactly
byte_width = ceil(bit_width / 8) bytes regardless of the value, byte i
being (v >> 8 i) & 0xff of the value's pattern, and encoding the
uint32 value 0x01020304 yields [0x04, 0x03, 0x02, 0x01]. -/
theorem write_le_width_endianness (t : ScalarTy) (_hint : is_integral t = true) :
    (∀ v : Nat, (write_le t v).length = byte_width t ∧
      byte_width t = (bit_width t + 7) / 8 ∧
      ∀ i, i < byte_width t → (write_le t v).getD i 0 = (v >>> (8 * i)) &&& 0xff) ∧
    write_le ScalarTy.uint32 0x01020304 = [0x04, 0x03, 0x02, 0x01] := by
  refine ⟨fun v => ⟨write_le_int_length _ v, rfl, fun i hi => ?_⟩, by decide⟩
  show (write_le_int (byte_width t) v).getD i 0 = _
  rw [write_le_int_getD (byte_width t) v i hi, and_0xff_eq_mod, Nat.shiftRight_eq_div_pow]

/-- Witness for write_le_width_endianness on a uint16 value. -/
theorem write_le_width_endianness_witness :
    (write_le ScalarTy.uint16 1000).length = byte_width ScalarTy.uint16 ∧
    (write_le ScalarTy.uint16 1000).getD 1 0 = (1000 >>> (8 * 1)) &&& 0xff := by
  have h := write_le_width_endianness ScalarTy.uint16 (by decide)
  exact ⟨(h.1 1000).1, (h.1 1000).2.2 1 (by decide)⟩

/-- C3 counterexample: the codec does not instantiate for double,
because unsigned_int_of_size has no specialization at 64 bits, so the
claim that both single and double precision are supported fails. -/
theorem double_codec_undefined :
    codec_defined ScalarTy.double = false ∧
    unsigned_int_of_size (bit_width ScalarTy.double) = none := by
  decide

/-- C3 amended: the codec instantiates exactly for the fixed-width
integral types of 8, 16, 32 and 64 bits and for single-precision
float; double, like any other type, is a compile-time rejection. -/
theorem codec_supported_types :
    ∀ t : ScalarTy,
      codec_defined t = true ↔ (is_integral t = true ∨ t = ScalarTy.float) := by
  intro t
  cases t <;> decide

/-- C4: the write request frame is exactly 4 + byte_width t bytes:
the property id encoded little-endian in bytes below 2, the value in
bytes from 2 up to 2 + byte_width t, and the checksum constant in the
trailing 2 bytes; each region decodes back to what was put in. -/
theorem write_request_frame_shape (t : ScalarTy) (p v c : Nat)
    (hp : p < 2 ^ 16) (hv : v < 2 ^ bit_width t) (hc : c < 2 ^ 16) :
    (write_request t p v c).length = 4 + byte_width t ∧
    write_request t p v c =
      write_le ScalarTy.uint16 p ++ write_le t v ++ write_le ScalarTy.uint16 c ∧
    read_le ScalarTy.uint16 ((write_request t p v c).take 2) = p ∧
    read_le t (((write_request t p v c).drop 2).take (byte_width t)) = v ∧
    read_le ScalarTy.uint16 ((write_request t p v c).drop (2 + byte_width t)) = c := by
  have hseg := write_request_eq t p v c
  have hp16 : p < 2 ^ bit_width ScalarTy.uint16 := hp
  have hc16 : c < 2 ^ bit_width ScalarTy.uint16 := hc
  have hlen2 : (write_le ScalarTy.uint16 p).length = 2 := write_le_length _ p
  have hlenv : (write_le t v).length = byte_width t := write_le_length t v
  refine ⟨?_, hseg, ?_, ?_, ?_⟩
  · rw [hseg]
    simp only [List.length_append, write_le_length]
    show 2 + (byte_width t + 2) = 4 + byte_width t
    omega
  · rw [hseg, List.take_append_eq_append_take, List.take_append_eq_append_take,
      List.take_of_length_le (le_of_eq hlen2), hlen2, Nat.sub_self, List.take_zero,
      List.append_nil, List.length_append, hlen2, hlenv,
      Nat.sub_eq_zero_of_le (by omega), List.take_zero, List.append_nil]
    exact read_le_write_le_aux ScalarTy.uint16 p hp16
  · rw [hseg, List.drop_append_eq_append_drop, List.drop_append_eq_append_drop,
      List.drop_eq_nil_of_le (le_of_eq hlen2), List.nil_append, hlen2, Nat.sub_self,
      List.drop_zero, List.length_append, hlen2, hlenv,
      Nat.sub_eq_zero_of_le (by omega), List.drop_zero,
      List.take_append_eq_append_take, List.take_of_length_le (le_of_eq hlenv), hlenv,
      Nat.sub_self, List.take_zero, List.append_nil]
    exact read_le_write_le_aux t v hv
  · rw [hseg, List.drop_append_eq_append_drop, List.drop_append_eq_append_drop,
      List.drop_eq_nil_of_le (by omega), List.nil_append, hlen2,
      List.drop_eq_nil_of_le (by omega), List.nil_append, List.length_append, hlen2, hlenv,
      show 2 + byte_width t - (2 + byte_width t) = 0 by omega, List.drop_zero]
    exact read_le_write_le_aux ScalarTy.uint16 c hc16

/-- Witness for write_request_frame_shape: the frame for property id 5
and uint16 value 1000 with checksum 43981. -/
theorem write_request_frame_shape_witness :
    (write_request ScalarTy.uint16 5 1000 43981).length = 4 + byte_width ScalarTy.uint16 ∧
    read_le ScalarTy.uint16 ((write_request ScalarTy.uint16 5 1000 43981).take 2) = 5 ∧
    read_le ScalarTy.uint16
      (((write_request ScalarTy.uint16 5 1000 43981).drop 2).take (byte_width ScalarTy.uint16)) =
      1000 ∧
    read_le ScalarTy.uint16
      ((write_request ScalarTy.uint16 5 1000 43981).drop (2 + byte_width ScalarTy.uint16)) =
      43981 := by
  have h := write_request_frame_shape ScalarTy.uint16 5 1000 43981 (by decide) (by decide)
    (by decide)
  exact ⟨h.1, h.2.2.1, h.2.2.2.1, h.2.2.2.2⟩

/-- C5: the read request frame is exactly 4 bytes, the property id
little-endian in the first 2 and the checksum constant in the last 2,
with no payload; and read_property consults the transaction primitive
only at the computed address, this 4-byte frame, and an rx request of
exactly byte_width t bytes. -/
theorem read_request_frame_shape (t : ScalarTy) (p c num : Nat)
    (hp : p < 2 ^ 16) (hc : c < 2 ^ 16) :
    (read_request p c).length = 4 ∧
    read_request p c = write_le ScalarTy.uint16 p ++ write_le ScalarTy.uint16 c ∧
    read_le ScalarTy.uint16 ((read_request p c).take 2) = p ∧
    read_le ScalarTy.uint16 ((read_request p c).drop 2) = c ∧
    ∀ bus bus2 : Bus,
      bus (transaction_addr num) (read_request p c) (some (byte_width t)) =
        bus2 (transaction_addr num) (read_request p c) (some (byte_width t)) →
      ∀ ptr, read_property bus t p c num ptr = read_property bus2 t p c num ptr := by
  have hseg := read_request_eq p c
  have hp16 : p < 2 ^ bit_width ScalarTy.uint16 := hp
  have hc16 : c < 2 ^ bit_width ScalarTy.uint16 := hc
  have hlen2 : (write_le ScalarTy.uint16 p).length = 2 := write_le_length _ p
  refine ⟨?_, hseg, ?_, ?_, ?_⟩
  · rw [hseg]
    simp only [List.length_append, write_le_length]
    decide
  · rw [hseg, List.take_left' hlen2]
    exact read_le_write_le_aux ScalarTy.uint16 p hp16
  · rw [hseg, List.drop_left' hlen2]
    exact read_le_write_le_aux ScalarTy.uint16 c hc16
  · intro bus bus2 hb ptr
    unfold read_property
    rw [hb]

/-- Witness for read_request_frame_shape at property id 5 and
checksum 43981. -/
theorem read_request_frame_shape_witness :
    (read_request 5 43981).length = 4 ∧
    read_le ScalarTy.uint16 ((read_request 5 43981).take 2) = 5 ∧
    read_le ScalarTy.uint16 ((read_request 5 43981).drop 2) = 43981 := by
  have h := read_request_frame_shape ScalarTy.float 5 43981 0 (by decide) (by decide)
  exact ⟨h.1, h.2.2.1, h.2.2.2.1⟩

/-- C6: when the transaction primitive reports failure, read_property
returns false and the caller's output variable keeps its old contents,
and write_property returns false; write_property always returns the
primitive's flag verbatim, and read_property returns true exactly when
the primitive succeeds. -/
theorem failure_propagation (bus : Bus) (t : ScalarTy) (p c num : Nat) (ptr : Option Nat) :
    ((bus (transaction_addr num) (read_request p c) (some (byte_width t))).ok = false →
      read_property bus t p c num ptr = (false, ptr)) ∧
    (read_property bus t p c num ptr).1 =
      (bus (transaction_addr num) (read_request p c) (some (byte_width t))).ok ∧
    ∀ v, write_property bus t p v c num =
      (bus (transaction_addr num) (write_request t p v c) none).ok := by
  refine ⟨fun hfail => ?_, ?_, fun v => rfl⟩
  · simp [read_property, hfail]
  · rcases hok : (bus (transaction_addr num) (read_request p c) (some (byte_width t))).ok with _ | _ <;>
      rcases ptr with _ | x <;> simp [read_property, hok]

/-- Witness for failure_propagation with a primitive that always
fails: the old contents 7 of the output variable survive and both
operations return false. -/
theorem failure_propagation_witness :
    read_property (fun _ _ _ => I2CResult.mk false [1, 2]) ScalarTy.uint16 5 43981 0 (some 7) =
      (false, some 7) ∧
    write_property (fun _ _ _ => I2CResult.mk false [1, 2]) ScalarTy.uint16 5 77 43981 0 =
      false := by
  have h := failure_propagation (fun _ _ _ => I2CResult.mk false [1, 2]) ScalarTy.uint16
    5 43981 0 (some 7)
  exact ⟨h.1 rfl, (h.2.2 77).trans rfl⟩

/-- C7: for every device index in the 0 to 7 range of the data model,
the bus address handed to the transaction primitive by both property
operations is the fixed base address 0xD shifted left by 3 (0x68) plus
the index; index 4 gives 0x6C. -/
theorem device_address_offset (num : Nat) (h : num < 8) :
    transaction_addr num = 0xD <<< 3 + num ∧
    transaction_addr 4 = 0x6C ∧
    ∀ (bus bus2 : Bus) (t : ScalarTy) (p c : Nat),
      (∀ tx rx, bus (0xD <<< 3 + num) tx rx = bus2 (0xD <<< 3 + num) tx rx) →
      (∀ ptr, read_property bus t p c num ptr = read_property bus2 t p c num ptr) ∧
      (∀ v, write_property bus t p v c num = write_property bus2 t p v c num) := by
  have h104 : (0xD : Nat) <<< 3 = 104 := rfl
  have haddr : transaction_addr num = 0xD <<< 3 + num := by
    unfold transaction_addr i2c_addr
    rw [h104, Nat.mod_eq_of_lt (by omega)]
  refine ⟨haddr, rfl, fun bus bus2 t p c hb => ?_⟩
  exact property_bus_dependence bus bus2 t p c num (by rw [haddr]; exact hb)

/-- Witness for device_address_offset at index 4. -/
theorem device_address_offset_witness :
    transaction_addr 4 = 0xD <<< 3 + 4 ∧ transaction_addr 4 = 0x6C := by
  have h := device_address_offset 4 (by decide)
  exact ⟨h.1, h.2.1⟩

/-- C8: on a buffer of at least byte_width t bytes, every access of
the read_le loop is in bounds (the checked loop never fails and agrees
with the unchecked one), and write_le stores only to indices below
byte_width t: the checked store loop never fails, the buffer length is
preserved, and every byte at or past byte_width t is unchanged. -/
theorem codec_buffer_bounds (t : ScalarTy) (buffer : List Nat)
    (h : byte_width t ≤ buffer.length) :
    read_le_checked (bit_width t) buffer (byte_width t) = some (read_le t buffer) ∧
    ∀ v : Nat,
      write_le_checked buffer 0 v (byte_width t) =
        some (write_le_into (byte_width t) buffer 0 v) ∧
      (write_le_into (byte_width t) buffer 0 v).length = buffer.length ∧
      ∀ j, byte_width t ≤ j →
        (write_le_into (byte_width t) buffer 0 v).getD j 0 = buffer.getD j 0 := by
  refine ⟨read_le_checked_eq _ buffer _ h,
    fun v => ⟨write_le_checked_eq buffer 0 v _ (by omega),
      write_le_into_length _ _ _ _, fun j hj => ?_⟩⟩
  rw [write_le_into_eq _ buffer 0 v (by omega)]
  simp only [List.take_zero, List.nil_append, Nat.zero_add]
  rw [List.getD_eq_getElem?_getD,
    List.getElem?_append_right (by rw [write_le_int_length]; omega), write_le_int_length,
    List.getElem?_drop, show byte_width t + (j - byte_width t) = j by omega,
    ← List.getD_eq_getElem?_getD]

/-- Witness for codec_buffer_bounds on a 5-byte buffer read and
written as uint32: the checked read succeeds and the byte past the
width survives a store. -/
theorem codec_buffer_bounds_witness :
    read_le_checked (bit_width ScalarTy.uint32) [1, 2, 3, 4, 9] (byte_width ScalarTy.uint32) =
      some (read_le ScalarTy.uint32 [1, 2, 3, 4, 9]) ∧
    (write_le_into (byte_width ScalarTy.uint32) [1, 2, 3, 4, 9] 0 77).getD 4 0 = 9 := by
  have h := codec_buffer_bounds ScalarTy.uint32 [1, 2, 3, 4, 9] (by decide)
  refine ⟨h.1, ?_⟩
  rw [(h.2 77).2.2 4 (by decide)]
  rfl

/-- C9: a read_property call with a null output pointer still builds
the request, runs the full transaction with an rx request of
byte_width t bytes, skips decoding, and returns the transaction's
flag. -/
theorem read_property_null_ptr (bus : Bus) (t : ScalarTy) (p c num : Nat) :
    read_property bus t p c num none =
      ((bus (transaction_addr num) (read_request p c) (some (byte_width t))).ok, none) := by
  unfold read_property
  rcases hok : (bus (transaction_addr num) (read_request p c) (some (byte_width t))).ok with _ | _ <;>
    simp [hok]

/-- C10 counterexample: at device index 24 the address does not wrap
modulo 256: it is exactly 0x68 + 24 = 128, unreduced, so the claim
that indices 24 and above wrap modulo 256 fails. -/
theorem no_wrap_at_24 :
    transaction_addr 24 = 128 ∧ 0xD <<< 3 + 24 = 128 ∧
    (0xD <<< 3 + 24) % 256 = 0xD <<< 3 + 24 := by
  decide

/-- C10 amended: neither operation validates the index: for every
8-bit index the address handed to the primitive is
(0x68 + num) mod 2^8, so indices 8 and above silently address other
bus addresses; the modular reduction is the identity below index 152,
and indices 152 and above wrap modulo 256. -/
theorem device_address_wraparound (num : Nat) (h : num < 256) :
    transaction_addr num = (0xD <<< 3 + num) % 256 ∧
    (num < 152 → transaction_addr num = 0xD <<< 3 + num) ∧
    (152 ≤ num → transaction_addr num = 0xD <<< 3 + num - 256) ∧
    ∀ (bus bus2 : Bus) (t : ScalarTy) (p c : Nat),
      (∀ tx rx, bus ((0xD <<< 3 + num) % 256) tx rx = bus2 ((0xD <<< 3 + num) % 256) tx rx) →
      (∀ ptr, read_property bus t p c num ptr = read_property bus2 t p c num ptr) ∧
      (∀ v, write_property bus t p v c num = write_property bus2 t p v c num) := by
  have h104 : (0xD : Nat) <<< 3 = 104 := rfl
  refine ⟨rfl, fun h1 => ?_, fun h1 => ?_, fun bus bus2 t p c hb =>
    property_bus_dependence bus bus2 t p c num (fun tx rx => hb tx rx)⟩
  · unfold transaction_addr i2c_addr
    rw [h104, Nat.mod_eq_of_lt (by omega)]
  · unfold transaction_addr i2c_addr
    rw [h104]
    omega

/-- Witness for device_address_wraparound at index 200, which wraps. -/
theorem device_address_wraparound_witness :
    transaction_addr 200 = (0xD <<< 3 + 200) % 256 ∧
    transaction_addr 200 = 0xD <<< 3 + 200 - 256 := by
  have h := device_address_wraparound 200 (by decide)
  exact ⟨h.1, h.2.2.1 (by decide)⟩

end odrive
